import Mathlib

/-!
A shallow embedding of the Addlee matching engine
(`src/lib/matching-engine.js`) together with a verification of its
documented behaviour.

Modelling conventions:
* JavaScript numbers are idealised as real numbers (`ℝ`); `Math.log` is
  `Real.log`, `Math.sqrt` is `Real.sqrt`, and `Math.round` is
  `fun x => ⌊x + 1/2⌋` (JavaScript rounds halves towards positive
  infinity).
* JavaScript objects used as string-keyed maps are modelled as
  insertion-ordered association lists (`List (String × _)`); `obj[k]`
  is `objGet`, `obj[k] = v` is `objSet` (update in place, append when
  the key is new), and `for (k in obj)` iterates in list order, which
  matches the insertion-order iteration of string keys in JavaScript.
* `new Set(xs)` iterated in insertion order is `jsDedup`.
* `Array.prototype.sort`, which ECMAScript 2019 requires to be stable,
  is modelled by the stable `List.mergeSort`.
* Absent object fields (`undefined`) are modelled by `Option`.
-/

/-! ### Small string constants (the literals of the source file) -/

def emptyStr : String := ""

def spaceStr : String := " "

def commaSpaceStr : String := ", "

def periodSpaceStr : String := ". "

def periodStr : String := "."

def undefinedStr : String := "undefined"

def sharedLeadStr : String := "Both share interests in "

def strongMidStr : String := "\x27s content style aligns strongly with "

def strongTailStr : String := "\x27s brand"

def goodMidStr : String := "\x27s profile shows good alignment with "

def goodTailStr : String := "\x27s target audience"

def engLeadStr : String := "High engagement rate ("

def engTailStr : String := ") suggests strong audience connection"

def freshMidStr : String := "\x27s creative approach could bring a fresh perspective to "

def freshTailStr : String := "\x27s content strategy"

/-! ### JavaScript object / set helpers -/

/-- Reading `m[k]` from a JavaScript object modelled as an association
list: the first binding of the key, if any. -/
def objGet {α : Type} : List (String × α) → String → Option α
  | [], _ => none
  | (k', v) :: rest, k => if k' = k then some v else objGet rest k

/-- Writing `m[k] = v`: update the existing binding in place, or append
a new binding at the end (JavaScript insertion order). -/
def objSet {α : Type} : List (String × α) → String → α → List (String × α)
  | [], k, v => [(k, v)]
  | (k', v') :: rest, k, v =>
    if k' = k then (k, v) :: rest else (k', v') :: objSet rest k v

/-- `new Set(l)` iterated in insertion order: keep the first occurrence
of each element. -/
def jsDedupAux : List String → List String → List String
  | [], _ => []
  | x :: xs, seen =>
    if x ∈ seen then jsDedupAux xs seen else x :: jsDedupAux xs (x :: seen)

def jsDedup (l : List String) : List String := jsDedupAux l []

/-! ### Tokenisation (`tokenize`) -/

/-- The characters matched by the regular-expression class `\s`. -/
def jsWhitespace (c : Char) : Bool :=
  c == ' ' || c == '\t' || c == '\n' || c == '\r' || c == '\x0b' || c == '\x0c'

/-- Characters surviving `.replace(/[^a-z0-9\s]/g, '')` (applied after
lower-casing). -/
def keepChar (c : Char) : Bool :=
  (decide ('a' ≤ c) && decide (c ≤ 'z')) ||
    (decide ('0' ≤ c) && decide (c ≤ '9')) || jsWhitespace c

/-- `.split(/\s+/)`: maximal runs of non-whitespace characters.  The
empty fragments JavaScript produces at the ends are dropped here; they
are removed by the length filter of `tokenize` in any case. -/
def splitWsAux : List Char → List Char → List (List Char)
  | [], acc => if acc = [] then [] else [acc.reverse]
  | c :: cs, acc =>
    if jsWhitespace c then
      if acc = [] then splitWsAux cs [] else acc.reverse :: splitWsAux cs []
    else splitWsAux cs (c :: acc)

def splitWs (l : List Char) : List (List Char) := splitWsAux l []

/-- `tokenize(text)`: lower-case, strip characters outside
`[a-z0-9\s]`, split on whitespace runs, keep tokens of length `> 1`. -/
def tokenize (text : String) : List String :=
  ((splitWs ((text.data.map Char.toLower).filter keepChar)).map String.mk).filter
    (fun t => 1 < t.length)

/-! ### Term frequency (`termFrequency`) -/

/-- The raw per-token counts built by the first loop of
`termFrequency`. -/
def tfCounts (tokens : List String) : List (String × Nat) :=
  tokens.foldl (fun tf token => objSet tf token ((objGet tf token).getD 0 + 1)) []

/-- `termFrequency(tokens)`: counts divided by `tokens.length || 1`. -/
noncomputable def termFrequency (tokens : List String) : List (String × ℝ) :=
  let total : ℝ := if tokens.length = 0 then 1 else (tokens.length : ℝ)
  (tfCounts tokens).map (fun p => (p.1, (p.2 : ℝ) / total))

/-! ### Inverse document frequency (`inverseDocumentFrequency`) -/

/-- The inner loop of `inverseDocumentFrequency`: bump the count of
every word of the deduplicated token set `ws`. -/
def bumpCounts (m : List (String × Nat)) (ws : List String) : List (String × Nat) :=
  ws.foldl (fun m w => objSet m w ((objGet m w).getD 0 + 1)) m

/-- The per-word document counts built by the first loop of
`inverseDocumentFrequency`. -/
def docCounts (documents : List String) : List (String × Nat) :=
  documents.foldl (fun m doc => bumpCounts m (jsDedup (tokenize doc))) []

/-- `inverseDocumentFrequency(documents)`:
`idf[word] = Math.log(n / count) + 1`. -/
noncomputable def inverseDocumentFrequency (documents : List String) :
    List (String × ℝ) :=
  let n := documents.length
  (docCounts documents).map (fun p => (p.1, Real.log ((n : ℝ) / (p.2 : ℝ)) + 1))

/-! ### TF-IDF vectors (`tfidfVector`) -/

/-- `tfidfVector(text, idf)`: term frequencies weighted by shared idf
values; a word is kept only when `idf[word]` is truthy (present and
non-zero). -/
noncomputable def tfidfVector (text : String) (idf : List (String × ℝ)) :
    List (String × ℝ) :=
  (termFrequency (tokenize text)).filterMap (fun p =>
    match objGet idf p.1 with
    | none => none
    | some v => if v = 0 then none else some (p.1, p.2 * v))

/-! ### Cosine similarity (`cosineSimilarity`) -/

/-- `vec[key] || 0`. -/
def vecGet (v : List (String × ℝ)) (k : String) : ℝ := (objGet v k).getD 0

/-- `cosineSimilarity(vecA, vecB)`: dot product over the union of keys
divided by the product of Euclidean norms, `0` when that product is
zero. -/
noncomputable def cosineSimilarity (vecA vecB : List (String × ℝ)) : ℝ :=
  let allKeys := jsDedup (vecA.map Prod.fst ++ vecB.map Prod.fst)
  let dot := (allKeys.map (fun k => vecGet vecA k * vecGet vecB k)).sum
  let magA := (allKeys.map (fun k => vecGet vecA k * vecGet vecA k)).sum
  let magB := (allKeys.map (fun k => vecGet vecB k * vecGet vecB k)).sum
  let magnitude := Real.sqrt magA * Real.sqrt magB
  if magnitude = 0 then 0 else dot / magnitude

/-! ### Tag overlap (`tagOverlapScore`) -/

/-- `s.toLowerCase()` (adequate for the ASCII tags of this domain). -/
def jsToLower (s : String) : String := String.mk (s.data.map Char.toLower)

/-- `tagOverlapScore(tagsA, tagsB)`: case-insensitive Jaccard index,
`0` when the union is empty. -/
noncomputable def tagOverlapScore (tagsA tagsB : List String) : ℝ :=
  let setA := jsDedup (tagsA.map jsToLower)
  let setB := jsDedup (tagsB.map jsToLower)
  let overlap := (setA.filter (fun t => decide (t ∈ setB))).length
  let unionSize := (jsDedup (setA ++ setB)).length
  if unionSize = 0 then 0 else (overlap : ℝ) / (unionSize : ℝ)

/-! ### Profiles and profile text (`buildProfileText`) -/

/-- A profile object.  Every field may be absent (`undefined`). -/
structure Profile where
  name : Option String := none
  description : Option String := none
  tags : Option (List String) := none
  niche : Option String := none
  location : Option String := none
  type : Option String := none
  engagement : Option String := none
  rating : Option String := none
  collabs : Option String := none
  deriving DecidableEq

/-- `parts.join(sep)`. -/
def jsJoin (sep : String) : List String → String
  | [] => emptyStr
  | [x] => x
  | x :: xs => x ++ sep ++ jsJoin sep xs

/-- `buildProfileText(profile)`: name, description, tags, niche,
location and type joined with spaces (`x || ''` and `tags || []` for
absent fields). -/
def buildProfileText (profile : Profile) : String :=
  jsJoin spaceStr
    ([profile.name.getD emptyStr, profile.description.getD emptyStr] ++
      profile.tags.getD [] ++
      [profile.niche.getD emptyStr, profile.location.getD emptyStr,
        profile.type.getD emptyStr])

/-! ### Explanation text (`generateExplanation`) -/

/-- A digit character, as a value. -/
def digitVal (c : Char) : Option Nat :=
  if '0' ≤ c ∧ c ≤ '9' then some (c.toNat - '0'.toNat) else none

/-- Longest digit prefix and the rest. -/
def leadDigits : List Char → List Nat × List Char
  | [] => ([], [])
  | c :: cs =>
    match digitVal c with
    | some d => ((d :: (leadDigits cs).1), (leadDigits cs).2)
    | none => ([], c :: cs)

def digitsToNat (ds : List Nat) : Nat := ds.foldl (fun a d => a * 10 + d) 0

/-- `parseFloat(s)` on the decimal strings of this domain: optional
sign, integer digits, optional fractional digits; `none` for NaN.
Exponents and `Infinity`, which no profile data uses, are not
modelled. -/
def jsParseFloat (s : String) : Option ℚ :=
  let l := s.data.dropWhile (fun c => jsWhitespace c)
  let signRest : ℚ × List Char :=
    match l with
    | c :: cs => if c = '-' then (-1, cs) else if c = '+' then (1, cs) else (1, l)
    | [] => (1, [])
  let ip := leadDigits signRest.2
  match ip.2 with
  | c :: cs =>
    if c = '.' then
      let fp := leadDigits cs
      if ip.1 = [] ∧ fp.1 = [] then none
      else some (signRest.1 *
        ((digitsToNat ip.1 : ℚ) + (digitsToNat fp.1 : ℚ) / (10 ^ fp.1.length : ℚ)))
    else if ip.1 = [] then none
    else some (signRest.1 * (digitsToNat ip.1 : ℚ))
  | [] => if ip.1 = [] then none else some (signRest.1 * (digitsToNat ip.1 : ℚ))

/-- `${p.name}` in a template literal: `"undefined"` when absent. -/
def nameStr (p : Profile) : String := p.name.getD undefinedStr

/-- `generateExplanation(creator, hotel, textSim, tagScore)`. -/
noncomputable def generateExplanation (creator hotel : Profile)
    (textSim tagScore : ℝ) : String :=
  let creatorTags := jsDedup ((creator.tags.getD []).map jsToLower)
  let hotelTags := jsDedup ((hotel.tags.getD []).map jsToLower)
  let shared := creatorTags.filter (fun t => decide (t ∈ hotelTags))
  let parts1 : List String :=
    if shared.length > 0 then [sharedLeadStr ++ jsJoin commaSpaceStr shared] else []
  let parts2 : List String :=
    if textSim > 0.3 then
      [nameStr creator ++ strongMidStr ++ nameStr hotel ++ strongTailStr]
    else if textSim > 0.15 then
      [nameStr creator ++ goodMidStr ++ nameStr hotel ++ goodTailStr]
    else []
  let parts3 : List String :=
    match creator.engagement with
    | some e =>
      if e = emptyStr then []
      else
        match jsParseFloat e with
        | some q => if 4 < q then [engLeadStr ++ e ++ engTailStr] else []
        | none => []
    | none => []
  let parts := parts1 ++ parts2 ++ parts3
  let parts :=
    if parts = [] then
      [nameStr creator ++ freshMidStr ++ nameStr hotel ++ freshTailStr]
    else parts
  jsJoin periodSpaceStr parts ++ periodStr

/-! ### The matcher (`computeMatches`) -/

/-- One element of the array returned by `computeMatches`. -/
structure MatchResult where
  creator : Profile
  hotel : Profile
  score : ℤ
  textSimilarity : ℤ
  tagOverlap : ℤ
  explanation : String

/-- `Math.round`: round half towards positive infinity. -/
noncomputable def jround (x : ℝ) : ℤ := ⌊x + 1 / 2⌋

/-- The body of the inner loop of `computeMatches`: the match object
pushed for one (creator, hotel) pair, given the shared idf table. -/
noncomputable def pairMatch (idf : List (String × ℝ)) (creator hotel : Profile) :
    MatchResult :=
  let textSimilarity := cosineSimilarity (tfidfVector (buildProfileText creator) idf)
    (tfidfVector (buildProfileText hotel) idf)
  let tagScore := tagOverlapScore (creator.tags.getD []) (hotel.tags.getD [])
  let score := textSimilarity * 0.6 + tagScore * 0.4
  let percentage := min (jround (score * 100 + 50)) 99
  { creator := creator, hotel := hotel, score := percentage,
    textSimilarity := jround (textSimilarity * 100),
    tagOverlap := jround (tagScore * 100),
    explanation := generateExplanation creator hotel textSimilarity tagScore }

/-- The shared idf table: computed once from `[...creators, ...hotels]`. -/
noncomputable def corpusIdf (creators hotels : List Profile) : List (String × ℝ) :=
  inverseDocumentFrequency ((creators ++ hotels).map buildProfileText)

/-- The `matches` array before sorting: all pairs in cross-product
order (creators outer, hotels inner). -/
noncomputable def rawMatches (creators hotels : List Profile) : List MatchResult :=
  creators.flatMap (fun c => hotels.map (fun h => pairMatch (corpusIdf creators hotels) c h))

/-- The comparator `(a, b) => b.score - a.score` as a `≤`-style
relation: `a` may precede `b` iff the comparator is `≤ 0` on `(a, b)`. -/
def scoreDescBool (a b : MatchResult) : Bool := decide (b.score ≤ a.score)

/-- The comparator induced on score triples. -/
def tripleDescBool (t u : ℤ × ℤ × ℤ) : Bool := decide (u.1 ≤ t.1)

/-- `computeMatches(creators, hotels)`: score every cross pair, then
sort by score descending (stable, per ECMAScript 2019). -/
noncomputable def computeMatches (creators hotels : List Profile) : List MatchResult :=
  (rawMatches creators hotels).mergeSort scoreDescBool

/-! ### Derived notions used by the statements -/

/-- The three numeric observables of a match result. -/
def scoreTriple (m : MatchResult) : ℤ × ℤ × ℤ := (m.score, m.textSimilarity, m.tagOverlap)

/-- Number of documents whose token list contains `w`. -/
def countDocs (documents : List String) (w : String) : Nat :=
  (documents.filter (fun d => decide (w ∈ tokenize d))).length

/-- Replace absent name/description/tags by their neutral defaults. -/
def fillProfileDefaults (p : Profile) : Profile :=
  { p with
    name := some (p.name.getD emptyStr)
    description := some (p.description.getD emptyStr)
    tags := some (p.tags.getD []) }

/-- Equality on the fields claim C1 asserts to be score-relevant
(everything except niche, location, type, engagement, rating,
collabs). -/
def ClaimOneEq (p q : Profile) : Prop :=
  p.name = q.name ∧ p.description = q.description ∧ p.tags = q.tags

/-- Equality on every field the scores actually depend on (everything
except engagement, rating, collabs). -/
def ScoreInertEq (p q : Profile) : Prop :=
  p.name = q.name ∧ p.description = q.description ∧ p.tags = q.tags ∧
    p.niche = q.niche ∧ p.location = q.location ∧ p.type = q.type

/-- Agreement of the two inputs of the scoring pipeline. -/
def TextTagEq (p q : Profile) : Prop :=
  buildProfileText p = buildProfileText q ∧ p.tags.getD [] = q.tags.getD []

/-- The squared Euclidean norm of a sparse vector over its own keys. -/
noncomputable def vecNormSq (v : List (String × ℝ)) : ℝ :=
  ((jsDedup (v.map Prod.fst)).map (fun k => vecGet v k * vecGet v k)).sum

/-- The Euclidean norm of a sparse vector. -/
noncomputable def vecNorm (v : List (String × ℝ)) : ℝ := Real.sqrt (vecNormSq v)

/-! ### Concrete profiles used by witnesses and counterexamples -/

def sAA : String := "aa"

def sBB : String := "bb"

def sCC : String := "cc"

/-- A profile whose only content is the niche `"bb"`. -/
def profNicheBB : Profile := { niche := some sBB }

/-- Identical to `profNicheBB` except for the niche. -/
def profNicheCC : Profile := { niche := some sCC }

/-- A profile whose only content is the description `"bb"`. -/
def profDescBB : Profile := { description := some sBB }

/-- A profile whose only content is the description `"aa"`. -/
def profDescAA : Profile := { description := some sAA }

/-- A profile whose only content is the name `"aa"`. -/
def profNameAA : Profile := { name := some sAA }

/-- The empty profile. -/
def profEmpty : Profile := {}

/-- The empty profile with an engagement indicator added. -/
def profEngAA : Profile := { engagement := some sAA }

/-! ## Association-list lemmas -/

theorem objGet_objSet {α : Type} (m : List (String × α)) (k k' : String) (v : α) :
    objGet (objSet m k v) k' = if k = k' then some v else objGet m k' := by
  induction m with
  | nil => simp [objGet, objSet]
  | cons p rest ih =>
    obtain ⟨k₀, v₀⟩ := p
    by_cases h : k₀ = k
    · subst h
      simp only [objSet, if_pos rfl, objGet]
      split_ifs <;> simp_all [objGet]
    · simp only [objSet, if_neg h, objGet, ih]
      split_ifs <;> simp_all

theorem objGet_map_val {α β : Type} (m : List (String × α)) (g : α → β) (k : String) :
    objGet (m.map (fun p => (p.1, g p.2))) k = (objGet m k).map g := by
  induction m with
  | nil => simp [objGet]
  | cons p rest ih =>
    obtain ⟨k₀, v₀⟩ := p
    by_cases h : k₀ = k <;> simp [objGet, h, ih]

theorem mem_of_objGet {α : Type} {m : List (String × α)} {k : String} {v : α}
    (h : objGet m k = some v) : (k, v) ∈ m := by
  induction m with
  | nil => simp [objGet] at h
  | cons p rest ih =>
    obtain ⟨k₀, v₀⟩ := p
    by_cases hk : k₀ = k
    · subst hk
      simp [objGet] at h
      subst h
      exact List.mem_cons_self _ _
    · simp only [objGet, if_neg hk] at h
      exact List.mem_cons_of_mem _ (ih h)

theorem objGet_eq_none {α : Type} {m : List (String × α)} {k : String}
    (h : k ∉ m.map Prod.fst) : objGet m k = none := by
  induction m with
  | nil => simp [objGet]
  | cons p rest ih =>
    obtain ⟨k₀, v₀⟩ := p
    simp only [List.map_cons, List.mem_cons] at h
    push_neg at h
    simp only [objGet, if_neg (Ne.symm h.1)]
    exact ih h.2

theorem keys_objSet {α : Type} (m : List (String × α)) (k : String) (v : α) :
    (objSet m k v).map Prod.fst =
      if k ∈ m.map Prod.fst then m.map Prod.fst else m.map Prod.fst ++ [k] := by
  induction m with
  | nil => simp [objSet]
  | cons p rest ih =>
    obtain ⟨k₀, v₀⟩ := p
    by_cases hk : k₀ = k
    · subst hk
      simp [objSet]
    · simp only [objSet, if_neg hk, List.map_cons, ih]
      by_cases hm : k ∈ rest.map Prod.fst
      · simp [hm, Ne.symm hk]
      · simp [hm, Ne.symm hk]

theorem mem_keys_objSet {α : Type} {m : List (String × α)} {k x : String} {v : α}
    (h : x ∈ (objSet m k v).map Prod.fst) : x ∈ m.map Prod.fst ∨ x = k := by
  rw [keys_objSet] at h
  by_cases hm : k ∈ m.map Prod.fst
  · rw [if_pos hm] at h
    exact Or.inl h
  · rw [if_neg hm] at h
    rcases List.mem_append.mp h with h' | h'
    · exact Or.inl h'
    · exact Or.inr (List.mem_singleton.mp h')

/-! ## Deduplication lemmas -/

theorem mem_jsDedupAux {x : String} : ∀ {l seen : List String},
    x ∈ jsDedupAux l seen ↔ x ∈ l ∧ x ∉ seen
  | [], seen => by simp [jsDedupAux]
  | y :: ys, seen => by
    by_cases hy : y ∈ seen
    · simp only [jsDedupAux, if_pos hy, mem_jsDedupAux, List.mem_cons]
      constructor
      · rintro ⟨h1, h2⟩
        exact ⟨Or.inr h1, h2⟩
      · rintro ⟨h1 | h1, h2⟩
        · subst h1
          exact absurd hy h2
        · exact ⟨h1, h2⟩
    · simp only [jsDedupAux, if_neg hy, List.mem_cons, mem_jsDedupAux]
      constructor
      · rintro (h | ⟨h1, h2⟩)
        · subst h
          exact ⟨Or.inl rfl, hy⟩
        · push_neg at h2
          exact ⟨Or.inr h1, h2.2⟩
      · rintro ⟨h1 | h1, h2⟩
        · exact Or.inl h1
        · by_cases hxy : x = y
          · exact Or.inl hxy
          · refine Or.inr ⟨h1, fun h => ?_⟩
            rcases h with h' | h'
            · exact hxy h'
            · exact h2 h'

theorem mem_jsDedup {l : List String} {x : String} : x ∈ jsDedup l ↔ x ∈ l := by
  simp [jsDedup, mem_jsDedupAux]

theorem nodup_jsDedupAux (l : List String) (seen : List String) :
    (jsDedupAux l seen).Nodup := by
  induction l generalizing seen with
  | nil => simp [jsDedupAux]
  | cons y ys ih =>
    by_cases hy : y ∈ seen
    · simpa [jsDedupAux, if_pos hy] using ih seen
    · simp only [jsDedupAux, if_neg hy]
      refine List.Nodup.cons ?_ (ih (y :: seen))
      rw [mem_jsDedupAux]
      rintro ⟨-, h⟩
      exact h (List.mem_cons_self _ _)

theorem nodup_jsDedup (l : List String) : (jsDedup l).Nodup := nodup_jsDedupAux l []

/-! ## Document-count lemmas -/

theorem objGet_bumpCounts (k : String) : ∀ (ws : List String) (m : List (String × Nat)),
    ws.Nodup →
    objGet (bumpCounts m ws) k =
      if k ∈ ws then some ((objGet m k).getD 0 + 1) else objGet m k
  | [], m, _ => by simp [bumpCounts]
  | w :: ws, m, hws => by
    have hw : w ∉ ws := (List.nodup_cons.mp hws).1
    have hws' : ws.Nodup := (List.nodup_cons.mp hws).2
    have step : bumpCounts m (w :: ws) =
        bumpCounts (objSet m w ((objGet m w).getD 0 + 1)) ws := by
      simp [bumpCounts]
    rw [step, objGet_bumpCounts k ws _ hws']
    by_cases hk : k = w
    · subst hk
      rw [if_neg hw, objGet_objSet, if_pos rfl, if_pos (List.mem_cons_self _ _)]
    · have hobj : objGet (objSet m w ((objGet m w).getD 0 + 1)) k = objGet m k := by
        rw [objGet_objSet, if_neg (show ¬w = k from fun h => hk h.symm)]
      by_cases hmem : k ∈ ws
      · rw [if_pos hmem, hobj, if_pos (List.mem_cons_of_mem _ hmem)]
      · rw [if_neg hmem, hobj, if_neg (by simp [hk, hmem])]

theorem countDocs_cons (d : String) (docs : List String) (k : String) :
    countDocs (d :: docs) k = (if k ∈ tokenize d then 1 else 0) + countDocs docs k := by
  simp only [countDocs, List.filter_cons]
  by_cases h : k ∈ tokenize d <;> simp [h, Nat.add_comm]

theorem objGet_docCounts (docs : List String) (k : String) :
    objGet (docCounts docs) k =
      if countDocs docs k = 0 then none else some (countDocs docs k) := by
  have main : ∀ (ds : List String) (m : List (String × Nat)),
      objGet (ds.foldl (fun m doc => bumpCounts m (jsDedup (tokenize doc))) m) k =
        if countDocs ds k = 0 then objGet m k
        else some ((objGet m k).getD 0 + countDocs ds k) := by
    intro ds
    induction ds with
    | nil => intro m; simp [countDocs]
    | cons d ds ih =>
      intro m
      rw [List.foldl_cons, ih, objGet_bumpCounts k _ _ (nodup_jsDedup _), countDocs_cons]
      by_cases hd : k ∈ tokenize d
      · rw [if_pos (mem_jsDedup.mpr hd), if_pos hd]
        by_cases hc : countDocs ds k = 0
        · simp [hc]
        · rw [if_neg hc, if_neg (by omega)]
          simp only [Option.getD_some, Option.some.injEq]
          omega
      · rw [if_neg (fun h => hd (mem_jsDedup.mp h)), if_neg hd]
        simp
  rw [show docCounts docs =
      docs.foldl (fun m doc => bumpCounts m (jsDedup (tokenize doc))) [] from rfl,
    main docs []]
  by_cases h : countDocs docs k = 0 <;> simp [h, objGet]

theorem objGet_map_pair {α β : Type} (m : List (String × α)) (f : String × α → β)
    (k : String) :
    objGet (m.map (fun p => (p.1, f p))) k = (objGet m k).map (fun v => f (k, v)) := by
  induction m with
  | nil => simp [objGet]
  | cons p rest ih =>
    obtain ⟨k₀, v₀⟩ := p
    by_cases h : k₀ = k
    · subst h
      simp [objGet]
    · simp [objGet, h, ih]

theorem objGet_idf (docs : List String) (k : String) :
    objGet (inverseDocumentFrequency docs) k =
      if countDocs docs k = 0 then none
      else some (Real.log ((docs.length : ℝ) / (countDocs docs k : ℝ)) + 1) := by
  simp only [inverseDocumentFrequency]
  rw [objGet_map_pair (docCounts docs)
    (fun p => Real.log ((docs.length : ℝ) / (p.2 : ℝ)) + 1) k, objGet_docCounts]
  by_cases h : countDocs docs k = 0 <;> simp [h]

theorem idf_value_one_le {docs : List String} {k : String} {v : ℝ}
    (h : objGet (inverseDocumentFrequency docs) k = some v) : 1 ≤ v := by
  rw [objGet_idf] at h
  by_cases hc : countDocs docs k = 0
  · simp [hc] at h
  · rw [if_neg hc, Option.some.injEq] at h
    have hcpos : 0 < (countDocs docs k : ℝ) := by
      exact_mod_cast Nat.pos_of_ne_zero hc
    have hle : (countDocs docs k : ℝ) ≤ (docs.length : ℝ) := by
      exact_mod_cast List.length_filter_le _ docs
    have : 0 ≤ Real.log ((docs.length : ℝ) / (countDocs docs k : ℝ)) :=
      Real.log_nonneg ((one_le_div hcpos).mpr hle)
    linarith [h]

/-! ## Term-frequency and TF-IDF vector lemmas -/

theorem mem_termFrequency_nonneg {tokens : List String} {p : String × ℝ}
    (h : p ∈ termFrequency tokens) : 0 ≤ p.2 := by
  simp only [termFrequency, List.mem_map] at h
  obtain ⟨q, hq, rfl⟩ := h
  refine div_nonneg (by positivity) ?_
  split_ifs <;> positivity

theorem vecGet_nonneg_of_entries {v : List (String × ℝ)} (hv : ∀ p ∈ v, 0 ≤ p.2)
    (k : String) : 0 ≤ vecGet v k := by
  unfold vecGet
  cases hobj : objGet v k with
  | none => simp
  | some w => simpa using hv _ (mem_of_objGet hobj)

theorem tfidf_entry_mem {text : String} {idf : List (String × ℝ)} {p : String × ℝ}
    (h : p ∈ tfidfVector text idf) :
    ∃ q ∈ termFrequency (tokenize text),
      ∃ w, objGet idf q.1 = some w ∧ w ≠ 0 ∧ p = (q.1, q.2 * w) := by
  simp only [tfidfVector, List.mem_filterMap] at h
  obtain ⟨q, hq, hf⟩ := h
  split at hf
  · exact absurd hf (by simp)
  · rename_i w hobj
    split at hf
    · exact absurd hf (by simp)
    · rename_i hw
      simp only [Option.some.injEq] at hf
      exact ⟨q, hq, w, hobj, hw, hf.symm⟩

theorem tfidf_corpus_entry_nonneg {text : String} {docs : List String} {p : String × ℝ}
    (h : p ∈ tfidfVector text (inverseDocumentFrequency docs)) : 0 ≤ p.2 := by
  obtain ⟨q, hq, w, hobj, hw, rfl⟩ := tfidf_entry_mem h
  have h1 : 0 ≤ q.2 := mem_termFrequency_nonneg hq
  have h2 : (1 : ℝ) ≤ w := idf_value_one_le hobj
  dsimp only
  nlinarith

theorem keys_count_foldl_subset (k : String) : ∀ (toks : List String)
    (m : List (String × Nat)),
    k ∈ ((toks.foldl (fun tf t => objSet tf t ((objGet tf t).getD 0 + 1)) m).map Prod.fst) →
    k ∈ m.map Prod.fst ∨ k ∈ toks
  | [], m, h => Or.inl h
  | t :: ts, m, h => by
    rw [List.foldl_cons] at h
    rcases keys_count_foldl_subset k ts _ h with h' | h'
    · rcases mem_keys_objSet h' with h'' | h''
      · exact Or.inl h''
      · exact Or.inr (h'' ▸ List.mem_cons_self _ _)
    · exact Or.inr (List.mem_cons_of_mem _ h')

theorem keys_tfCounts_subset {tokens : List String} {k : String}
    (h : k ∈ (tfCounts tokens).map Prod.fst) : k ∈ tokens := by
  rcases keys_count_foldl_subset k tokens [] h with h' | h'
  · simp at h'
  · exact h'

theorem keys_termFrequency (tokens : List String) :
    (termFrequency tokens).map Prod.fst = (tfCounts tokens).map Prod.fst := by
  simp only [termFrequency, List.map_map]
  rfl

theorem tfidf_support {text : String} {idf : List (String × ℝ)} {k : String}
    (h : vecGet (tfidfVector text idf) k ≠ 0) : k ∈ tokenize text := by
  unfold vecGet at h
  cases hobj : objGet (tfidfVector text idf) k with
  | none => rw [hobj] at h; simp at h
  | some w =>
    obtain ⟨q, hq, w', hobj', hw', heq⟩ := tfidf_entry_mem (mem_of_objGet hobj)
    have hk : k = q.1 := congrArg Prod.fst heq
    have hmem : q.1 ∈ (termFrequency (tokenize text)).map Prod.fst :=
      List.mem_map_of_mem _ hq
    rw [keys_termFrequency] at hmem
    exact hk ▸ keys_tfCounts_subset hmem

/-! ## Cosine-similarity lemmas -/

theorem cosineSimilarity_nonneg {a b : List (String × ℝ)}
    (ha : ∀ p ∈ a, 0 ≤ p.2) (hb : ∀ p ∈ b, 0 ≤ p.2) :
    0 ≤ cosineSimilarity a b := by
  simp only [cosineSimilarity]
  split_ifs with h
  · exact le_refl 0
  · apply div_nonneg
    · apply List.sum_nonneg
      intro x hx
      simp only [List.mem_map] at hx
      obtain ⟨k, -, rfl⟩ := hx
      exact mul_nonneg (vecGet_nonneg_of_entries ha k) (vecGet_nonneg_of_entries hb k)
    · positivity

theorem cosineSimilarity_le_one (a b : List (String × ℝ)) :
    cosineSimilarity a b ≤ 1 := by
  simp only [cosineSimilarity]
  have hnd : (jsDedup (a.map Prod.fst ++ b.map Prod.fst)).Nodup := nodup_jsDedup _
  split_ifs with h
  · norm_num
  · rw [div_le_one (lt_of_le_of_ne (by positivity) (Ne.symm h))]
    have hdot : ((jsDedup (a.map Prod.fst ++ b.map Prod.fst)).map
        (fun k => vecGet a k * vecGet b k)).sum =
        (jsDedup (a.map Prod.fst ++ b.map Prod.fst)).toFinset.sum
          (fun k => vecGet a k * vecGet b k) := (List.sum_toFinset _ hnd).symm
    have hA : ((jsDedup (a.map Prod.fst ++ b.map Prod.fst)).map
        (fun k => vecGet a k * vecGet a k)).sum =
        (jsDedup (a.map Prod.fst ++ b.map Prod.fst)).toFinset.sum
          (fun k => vecGet a k ^ 2) := by
      rw [← List.sum_toFinset _ hnd]
      exact Finset.sum_congr rfl (fun x _ => (pow_two _).symm)
    have hB : ((jsDedup (a.map Prod.fst ++ b.map Prod.fst)).map
        (fun k => vecGet b k * vecGet b k)).sum =
        (jsDedup (a.map Prod.fst ++ b.map Prod.fst)).toFinset.sum
          (fun k => vecGet b k ^ 2) := by
      rw [← List.sum_toFinset _ hnd]
      exact Finset.sum_congr rfl (fun x _ => (pow_two _).symm)
    rw [hdot, hA, hB]
    exact Real.sum_mul_le_sqrt_mul_sqrt _ _ _

theorem magSq_over_superset (v : List (String × ℝ)) {K : List String} (hK : K.Nodup)
    (hsub : ∀ k, k ∈ v.map Prod.fst → k ∈ K) :
    (K.map (fun k => vecGet v k * vecGet v k)).sum = vecNormSq v := by
  unfold vecNormSq
  rw [← List.sum_toFinset _ hK, ← List.sum_toFinset _ (nodup_jsDedup (v.map Prod.fst))]
  refine (Finset.sum_subset ?_ ?_).symm
  · intro x hx
    rw [List.mem_toFinset] at hx ⊢
    exact hsub x (mem_jsDedup.mp hx)
  · intro x _ hx
    rw [List.mem_toFinset, mem_jsDedup] at hx
    have : vecGet v x = 0 := by
      unfold vecGet
      rw [objGet_eq_none hx]
      rfl
    rw [this, mul_zero]

theorem cosineSimilarity_eq_zero_of_norm {a b : List (String × ℝ)}
    (h : vecNorm a = 0 ∨ vecNorm b = 0) : cosineSimilarity a b = 0 := by
  simp only [cosineSimilarity]
  have hnd : (jsDedup (a.map Prod.fst ++ b.map Prod.fst)).Nodup := nodup_jsDedup _
  have hA := magSq_over_superset a hnd
    (fun k hk => mem_jsDedup.mpr (List.mem_append.mpr (Or.inl hk)))
  have hB := magSq_over_superset b hnd
    (fun k hk => mem_jsDedup.mpr (List.mem_append.mpr (Or.inr hk)))
  have hmag : Real.sqrt (((jsDedup (a.map Prod.fst ++ b.map Prod.fst)).map
      (fun k => vecGet a k * vecGet a k)).sum) *
      Real.sqrt (((jsDedup (a.map Prod.fst ++ b.map Prod.fst)).map
        (fun k => vecGet b k * vecGet b k)).sum) = 0 := by
    rcases h with h | h
    · rw [hA]
      rw [show Real.sqrt (vecNormSq a) = vecNorm a from rfl, h, zero_mul]
    · rw [hB]
      rw [show Real.sqrt (vecNormSq b) = vecNorm b from rfl, h, mul_zero]
  rw [if_pos hmag]

theorem cosineSimilarity_eq_zero_of_disjoint {a b : List (String × ℝ)}
    (h : ∀ k, vecGet a k = 0 ∨ vecGet b k = 0) : cosineSimilarity a b = 0 := by
  simp only [cosineSimilarity]
  have hdot : ((jsDedup (a.map Prod.fst ++ b.map Prod.fst)).map
      (fun k => vecGet a k * vecGet b k)).sum = 0 := by
    apply List.sum_eq_zero
    intro x hx
    simp only [List.mem_map] at hx
    obtain ⟨k, -, rfl⟩ := hx
    rcases h k with h' | h' <;> simp [h']
  rw [hdot]
  split_ifs
  · rfl
  · exact zero_div _

theorem cosineSimilarity_self {v : List (String × ℝ)} (h : ∃ k, vecGet v k ≠ 0) :
    cosineSimilarity v v = 1 := by
  simp only [cosineSimilarity]
  obtain ⟨k₀, hk₀⟩ := h
  have hnd : (jsDedup (v.map Prod.fst ++ v.map Prod.fst)).Nodup := nodup_jsDedup _
  have hk₀K : k₀ ∈ jsDedup (v.map Prod.fst ++ v.map Prod.fst) := by
    rw [mem_jsDedup, List.mem_append]
    left
    cases hobj : objGet v k₀ with
    | none => exact absurd (by simp [vecGet, hobj]) hk₀
    | some w => exact List.mem_map.mpr ⟨(k₀, w), mem_of_objGet hobj, rfl⟩
  have hpos : 0 < ((jsDedup (v.map Prod.fst ++ v.map Prod.fst)).map
      (fun k => vecGet v k * vecGet v k)).sum := by
    rw [← List.sum_toFinset _ hnd]
    apply Finset.sum_pos'
    · intro i _
      exact mul_self_nonneg _
    · exact ⟨k₀, List.mem_toFinset.mpr hk₀K, mul_self_pos.mpr hk₀⟩
  have hmag : Real.sqrt (((jsDedup (v.map Prod.fst ++ v.map Prod.fst)).map
      (fun k => vecGet v k * vecGet v k)).sum) *
      Real.sqrt (((jsDedup (v.map Prod.fst ++ v.map Prod.fst)).map
        (fun k => vecGet v k * vecGet v k)).sum) = ((jsDedup
          (v.map Prod.fst ++ v.map Prod.fst)).map
            (fun k => vecGet v k * vecGet v k)).sum := Real.mul_self_sqrt hpos.le
  simp only [hmag]
  rw [if_neg hpos.ne', div_self hpos.ne']

theorem cosineSimilarity_symm (a b : List (String × ℝ)) :
    cosineSimilarity a b = cosineSimilarity b a := by
  simp only [cosineSimilarity]
  have hnd1 : (jsDedup (a.map Prod.fst ++ b.map Prod.fst)).Nodup := nodup_jsDedup _
  have hnd2 : (jsDedup (b.map Prod.fst ++ a.map Prod.fst)).Nodup := nodup_jsDedup _
  have hfin : (jsDedup (a.map Prod.fst ++ b.map Prod.fst)).toFinset =
      (jsDedup (b.map Prod.fst ++ a.map Prod.fst)).toFinset := by
    ext x
    simp only [List.mem_toFinset, mem_jsDedup, List.mem_append]
    exact or_comm
  have hsum : ∀ f : String → ℝ,
      ((jsDedup (a.map Prod.fst ++ b.map Prod.fst)).map f).sum =
      ((jsDedup (b.map Prod.fst ++ a.map Prod.fst)).map f).sum := by
    intro f
    rw [← List.sum_toFinset _ hnd1, ← List.sum_toFinset _ hnd2, hfin]
  rw [hsum (fun k => vecGet a k * vecGet b k), hsum (fun k => vecGet a k * vecGet a k),
    hsum (fun k => vecGet b k * vecGet b k)]
  have hdot : ((jsDedup (b.map Prod.fst ++ a.map Prod.fst)).map
      (fun k => vecGet a k * vecGet b k)).sum =
      ((jsDedup (b.map Prod.fst ++ a.map Prod.fst)).map
        (fun k => vecGet b k * vecGet a k)).sum := by
    congr 1
    exact List.map_congr_left (fun x _ => mul_comm _ _)
  have hswap : Real.sqrt (((jsDedup (b.map Prod.fst ++ a.map Prod.fst)).map
      (fun k => vecGet a k * vecGet a k)).sum) *
      Real.sqrt (((jsDedup (b.map Prod.fst ++ a.map Prod.fst)).map
        (fun k => vecGet b k * vecGet b k)).sum) =
      Real.sqrt (((jsDedup (b.map Prod.fst ++ a.map Prod.fst)).map
        (fun k => vecGet b k * vecGet b k)).sum) *
      Real.sqrt (((jsDedup (b.map Prod.fst ++ a.map Prod.fst)).map
        (fun k => vecGet a k * vecGet a k)).sum) := mul_comm _ _
  simp only [hdot, hswap]

/-! ## Tag-overlap lemmas -/

theorem tagOverlapScore_nonneg (tagsA tagsB : List String) :
    0 ≤ tagOverlapScore tagsA tagsB := by
  simp only [tagOverlapScore]
  split_ifs
  · exact le_refl 0
  · positivity

theorem tagOverlapScore_eq_zero_of_disjoint {tagsA tagsB : List String}
    (h : ∀ t ∈ tagsA.map jsToLower, t ∉ tagsB.map jsToLower) :
    tagOverlapScore tagsA tagsB = 0 := by
  simp only [tagOverlapScore]
  have hfil : (jsDedup (tagsA.map jsToLower)).filter
      (fun t => decide (t ∈ jsDedup (tagsB.map jsToLower))) = [] := by
    rw [List.filter_eq_nil_iff]
    intro t ht
    simp only [decide_eq_true_eq, mem_jsDedup]
    exact h t (mem_jsDedup.mp ht)
  rw [hfil]
  split_ifs <;> simp

/-! ## Rounding lemmas -/

theorem jround_le_jround {x y : ℝ} (h : x ≤ y) : jround x ≤ jround y :=
  Int.floor_le_floor (by linarith)

theorem jround_eq {x : ℝ} {n : ℤ} (h₁ : (n : ℝ) ≤ x + 1 / 2) (h₂ : x + 1 / 2 < n + 1) :
    jround x = n := Int.floor_eq_iff.mpr ⟨h₁, h₂⟩

theorem jround_intCast (n : ℤ) : jround (n : ℝ) = n := by
  refine jround_eq ?_ ?_ <;> push_cast <;> linarith

/-! ## Matcher-structure lemmas -/

theorem pairMatch_creator (idf : List (String × ℝ)) (c h : Profile) :
    (pairMatch idf c h).creator = c := rfl

theorem pairMatch_hotel (idf : List (String × ℝ)) (c h : Profile) :
    (pairMatch idf c h).hotel = h := rfl

theorem pairMatch_score (idf : List (String × ℝ)) (c h : Profile) :
    (pairMatch idf c h).score =
      min (jround ((cosineSimilarity (tfidfVector (buildProfileText c) idf)
        (tfidfVector (buildProfileText h) idf) * 0.6 +
        tagOverlapScore (c.tags.getD []) (h.tags.getD []) * 0.4) * 100 + 50)) 99 := rfl

theorem pairMatch_textSimilarity (idf : List (String × ℝ)) (c h : Profile) :
    (pairMatch idf c h).textSimilarity =
      jround (cosineSimilarity (tfidfVector (buildProfileText c) idf)
        (tfidfVector (buildProfileText h) idf) * 100) := rfl

theorem pairMatch_tagOverlap (idf : List (String × ℝ)) (c h : Profile) :
    (pairMatch idf c h).tagOverlap =
      jround (tagOverlapScore (c.tags.getD []) (h.tags.getD []) * 100) := rfl

theorem scoreDesc_trans (a b c : MatchResult) (h1 : scoreDescBool a b = true)
    (h2 : scoreDescBool b c = true) : scoreDescBool a c = true := by
  simp only [scoreDescBool, decide_eq_true_eq] at *
  omega

theorem scoreDesc_total (a b : MatchResult) :
    (scoreDescBool a b || scoreDescBool b a) = true := by
  simp only [scoreDescBool, Bool.or_eq_true, decide_eq_true_eq]
  exact Int.le_total _ _

theorem rawMatches_length (cs hs : List Profile) :
    (rawMatches cs hs).length = cs.length * hs.length := by
  simp only [rawMatches, List.length_flatMap]
  have hmap : List.map (List.length ∘ fun c => List.map
      (fun h => pairMatch (corpusIdf cs hs) c h) hs) cs =
      List.map (fun _ => hs.length) cs :=
    List.map_congr_left (fun c _ => by simp [Function.comp])
  rw [hmap, List.map_const', List.sum_replicate, smul_eq_mul]

theorem computeMatches_length (cs hs : List Profile) :
    (computeMatches cs hs).length = cs.length * hs.length := by
  rw [computeMatches, List.length_mergeSort, rawMatches_length]

theorem mem_computeMatches {cs hs : List Profile} {m : MatchResult} :
    m ∈ computeMatches cs hs ↔
      ∃ c ∈ cs, ∃ h ∈ hs, m = pairMatch (corpusIdf cs hs) c h := by
  rw [computeMatches, List.mem_mergeSort, rawMatches]
  simp only [List.mem_flatMap, List.mem_map]
  constructor
  · rintro ⟨c, hc, h, hh, rfl⟩
    exact ⟨c, hc, h, hh, rfl⟩
  · rintro ⟨c, hc, h, hh, rfl⟩
    exact ⟨c, hc, h, hh, rfl⟩

/-! ## Score bounds and the score formula -/

theorem corpusIdf_eq (cs hs : List Profile) :
    corpusIdf cs hs = inverseDocumentFrequency ((cs ++ hs).map buildProfileText) := rfl

theorem pairMatch_score_bounds (cs hs : List Profile) (c h : Profile) :
    50 ≤ (pairMatch (corpusIdf cs hs) c h).score ∧
      (pairMatch (corpusIdf cs hs) c h).score ≤ 99 := by
  have hts0 : 0 ≤ cosineSimilarity (tfidfVector (buildProfileText c) (corpusIdf cs hs))
      (tfidfVector (buildProfileText h) (corpusIdf cs hs)) := by
    refine cosineSimilarity_nonneg ?_ ?_ <;>
      · intro p hp
        rw [corpusIdf_eq] at hp
        exact tfidf_corpus_entry_nonneg hp
  have htg0 : 0 ≤ tagOverlapScore (c.tags.getD []) (h.tags.getD []) :=
    tagOverlapScore_nonneg _ _
  rw [pairMatch_score]
  constructor
  · refine le_min ?_ (by norm_num)
    have hle : (50 : ℝ) ≤ (cosineSimilarity
        (tfidfVector (buildProfileText c) (corpusIdf cs hs))
        (tfidfVector (buildProfileText h) (corpusIdf cs hs)) * 0.6 +
        tagOverlapScore (c.tags.getD []) (h.tags.getD []) * 0.4) * 100 + 50 := by
      nlinarith
    have h2 := jround_le_jround hle
    rwa [show jround (50 : ℝ) = 50 from by refine jround_eq ?_ ?_ <;> norm_num] at h2
  · exact min_le_right _ _

theorem computeMatches_bounds (cs hs : List Profile) :
    (computeMatches cs hs).Forall (fun m => 50 ≤ m.score ∧ m.score ≤ 99) := by
  rw [List.forall_iff_forall_mem]
  intro m hm
  obtain ⟨c, -, h, -, rfl⟩ := mem_computeMatches.mp hm
  exact pairMatch_score_bounds cs hs c h

theorem computeMatches_formula (cs hs : List Profile) :
    (computeMatches cs hs).Forall (fun m => m.score =
      min (jround ((cosineSimilarity
        (tfidfVector (buildProfileText m.creator) (corpusIdf cs hs))
        (tfidfVector (buildProfileText m.hotel) (corpusIdf cs hs)) * 0.6 +
        tagOverlapScore (m.creator.tags.getD []) (m.hotel.tags.getD []) * 0.4) * 100 +
          50)) 99) := by
  rw [List.forall_iff_forall_mem]
  intro m hm
  obtain ⟨c, -, h, -, rfl⟩ := mem_computeMatches.mp hm
  rfl

/-! ## Sortedness -/

theorem computeMatches_pairwise (cs hs : List Profile) :
    (computeMatches cs hs).Pairwise (fun a b => b.score ≤ a.score) := by
  rw [computeMatches]
  have h := List.sorted_mergeSort scoreDesc_trans scoreDesc_total (rawMatches cs hs)
  exact h.imp (fun hab => by simpa [scoreDescBool] using hab)

/-! ## Congruence of the score triples -/

theorem tripleOf_pairMatch_congr {idf : List (String × ℝ)} {c c' h h' : Profile}
    (hc : TextTagEq c c') (hh : TextTagEq h h') :
    scoreTriple (pairMatch idf c h) = scoreTriple (pairMatch idf c' h') := by
  obtain ⟨hct, hcg⟩ := hc
  obtain ⟨hht, hhg⟩ := hh
  simp only [scoreTriple, pairMatch_score, pairMatch_textSimilarity, pairMatch_tagOverlap,
    hct, hht, hcg, hhg]

theorem forall₂_map_eq {α β : Type} {R : α → α → Prop} {f : α → β} {l l' : List α}
    (hf : ∀ a b, R a b → f a = f b) (h : List.Forall₂ R l l') : l.map f = l'.map f := by
  induction h with
  | nil => rfl
  | cons hab htail ih => simp [hf _ _ hab, ih]

theorem forall₂_append {α : Type} {R : α → α → Prop} {l1 l2 l1' l2' : List α}
    (h1 : List.Forall₂ R l1 l1') (h2 : List.Forall₂ R l2 l2') :
    List.Forall₂ R (l1 ++ l2) (l1' ++ l2') := by
  induction h1 with
  | nil => simpa using h2
  | cons hab htail ih => simpa using List.Forall₂.cons hab ih

theorem map_triple_row (idf : List (String × ℝ)) {a a' : Profile}
    (ha : TextTagEq a a') {hs hs' : List Profile}
    (h2 : List.Forall₂ TextTagEq hs hs') :
    ((hs.map (fun h => pairMatch idf a h)).map scoreTriple) =
      ((hs'.map (fun h => pairMatch idf a' h)).map scoreTriple) := by
  induction h2 with
  | nil => rfl
  | cons hbb htail ih =>
    simp only [List.map_cons]
    rw [tripleOf_pairMatch_congr ha hbb, ih]

theorem map_triple_flat (idf : List (String × ℝ)) {cs cs' hs hs' : List Profile}
    (h1 : List.Forall₂ TextTagEq cs cs') (h2 : List.Forall₂ TextTagEq hs hs') :
    ((cs.flatMap (fun c => hs.map (fun h => pairMatch idf c h))).map scoreTriple) =
      ((cs'.flatMap (fun c => hs'.map (fun h => pairMatch idf c h))).map scoreTriple) := by
  induction h1 with
  | nil => rfl
  | cons ha htail ih =>
    simp only [List.flatMap_cons, List.map_append]
    rw [map_triple_row idf ha h2, ih]

theorem computeMatches_triples_congr {cs cs' hs hs' : List Profile}
    (h1 : List.Forall₂ TextTagEq cs cs') (h2 : List.Forall₂ TextTagEq hs hs') :
    (computeMatches cs hs).map scoreTriple =
      (computeMatches cs' hs').map scoreTriple := by
  have hidf : corpusIdf cs hs = corpusIdf cs' hs' := by
    rw [corpusIdf_eq, corpusIdf_eq]
    congr 1
    exact forall₂_map_eq (fun a b hab => hab.1) (forall₂_append h1 h2)
  have hms : ∀ (l : List MatchResult),
      List.map scoreTriple (l.mergeSort scoreDescBool) =
        (List.map scoreTriple l).mergeSort tripleDescBool := by
    intro l
    exact List.map_mergeSort (fun a _ b _ => rfl)
  rw [computeMatches, computeMatches, hms, hms]
  refine congrArg (fun l : List (ℤ × ℤ × ℤ) => l.mergeSort tripleDescBool) ?_
  rw [show rawMatches cs hs =
      cs.flatMap (fun c => hs.map (fun h => pairMatch (corpusIdf cs hs) c h)) from rfl,
    show rawMatches cs' hs' =
      cs'.flatMap (fun c => hs'.map (fun h => pairMatch (corpusIdf cs' hs') c h)) from rfl,
    hidf]
  exact map_triple_flat (corpusIdf cs' hs') h1 h2

/-! ## Stability of the sort -/

theorem mergeSort_filter_eq {α : Type} {le : α → α → Bool}
    (trans : ∀ a b c : α, le a b = true → le b c = true → le a c = true)
    (total : ∀ a b : α, (le a b || le b a) = true)
    (p : α → Bool) (l : List α)
    (hp : ∀ a b : α, p a = true → p b = true → le a b = true) :
    (l.mergeSort le).filter p = l.filter p := by
  have hall : ∀ (l' : List α), (∀ x ∈ l', p x = true) →
      l'.Pairwise (fun a b => le a b = true) := by
    intro l'
    induction l' with
    | nil => intro _; exact List.Pairwise.nil
    | cons x xs ih =>
      intro hmem
      refine List.Pairwise.cons ?_ (ih fun y hy => hmem y (List.mem_cons_of_mem _ hy))
      intro y hy
      exact hp x y (hmem x (List.mem_cons_self _ _)) (hmem y (List.mem_cons_of_mem _ hy))
  have hsub : (l.filter p).Sublist (l.mergeSort le) :=
    List.sublist_mergeSort trans total
      (hall _ (fun x hx => (List.mem_filter.mp hx).2)) (List.filter_sublist l)
  have hself : (l.filter p).filter p = l.filter p :=
    List.filter_eq_self.mpr (fun a ha => (List.mem_filter.mp ha).2)
  have hsub2 : (l.filter p).Sublist ((l.mergeSort le).filter p) := by
    have h2 := List.Sublist.filter p hsub
    rwa [hself] at h2
  have hlen : (l.filter p).length = ((l.mergeSort le).filter p).length := by
    rw [← List.countP_eq_length_filter, ← List.countP_eq_length_filter]
    exact ((List.mergeSort_perm l le).countP_eq p).symm
  exact (hsub2.eq_of_length hlen).symm

theorem computeMatches_filter_score (cs hs : List Profile) (s : ℤ) :
    (computeMatches cs hs).filter (fun m => decide (m.score = s)) =
      (rawMatches cs hs).filter (fun m => decide (m.score = s)) := by
  rw [computeMatches]
  refine mergeSort_filter_eq scoreDesc_trans scoreDesc_total _ _ ?_
  intro a b ha hb
  simp only [decide_eq_true_eq] at ha hb
  simp [scoreDescBool, ha, hb]

/-! ## Concrete evaluation helpers -/

theorem tfCounts_single (t : String) : tfCounts [t] = [(t, 1)] := by
  simp [tfCounts, objSet, objGet]

theorem termFrequency_single (t : String) : termFrequency [t] = [(t, 1)] := by
  simp [termFrequency, tfCounts_single]

theorem corpus_pair_eq (a b : Profile) :
    ([a] ++ [b]).map buildProfileText = [buildProfileText a, buildProfileText b] := rfl

theorem rawMatches_pair (a b : Profile) :
    rawMatches [a] [b] = [pairMatch (corpusIdf [a] [b]) a b] := by
  simp [rawMatches]

theorem computeMatches_pair (a b : Profile) :
    computeMatches [a] [b] = [pairMatch (corpusIdf [a] [b]) a b] := by
  rw [computeMatches, rawMatches_pair, List.mergeSort_singleton]

theorem tagOverlapScore_nil : tagOverlapScore [] [] = 0 := by
  simp [tagOverlapScore, jsDedup, jsDedupAux]

theorem jround_fifty : jround (50 : ℝ) = 50 := by
  refine jround_eq ?_ ?_ <;> norm_num

theorem jround_zero : jround (0 : ℝ) = 0 := by
  refine jround_eq ?_ ?_ <;> norm_num

theorem jround_hundred : jround (100 : ℝ) = 100 := by
  refine jround_eq ?_ ?_ <;> norm_num

theorem jround_hundredten : jround (110 : ℝ) = 110 := by
  refine jround_eq ?_ ?_ <;> norm_num

/-- Shared single-token evaluation: two profiles whose built texts both
tokenise to the same single token `t` and that have no tags score as a
perfect text match: display 99, text sub-score 100, tag sub-score 0. -/
theorem singleToken_eval {a b : Profile} {t : String}
    (ha : tokenize (buildProfileText a) = [t])
    (hb : tokenize (buildProfileText b) = [t])
    (hta : a.tags.getD [] = []) (htb : b.tags.getD [] = []) :
    (computeMatches [a] [b]).map scoreTriple = [(99, 100, 0)] := by
  have hidf_t : objGet (corpusIdf [a] [b]) t = some 1 := by
    rw [corpusIdf_eq, corpus_pair_eq, objGet_idf]
    have hcd : countDocs [buildProfileText a, buildProfileText b] t = 2 := by
      simp [countDocs, List.filter, ha, hb]
    rw [hcd]
    norm_num [Real.log_one]
  have hvA : tfidfVector (buildProfileText a) (corpusIdf [a] [b]) = [(t, 1)] := by
    simp only [tfidfVector]
    rw [ha, termFrequency_single]
    simp [List.filterMap_cons, hidf_t]
  have hvB : tfidfVector (buildProfileText b) (corpusIdf [a] [b]) = [(t, 1)] := by
    simp only [tfidfVector]
    rw [hb, termFrequency_single]
    simp [List.filterMap_cons, hidf_t]
  have hcos : cosineSimilarity (tfidfVector (buildProfileText a) (corpusIdf [a] [b]))
      (tfidfVector (buildProfileText b) (corpusIdf [a] [b])) = 1 := by
    rw [hvA, hvB]
    refine cosineSimilarity_self ⟨t, ?_⟩
    simp [vecGet, objGet]
  have htag : tagOverlapScore (a.tags.getD []) (b.tags.getD []) = 0 := by
    rw [hta, htb, tagOverlapScore_nil]
  rw [computeMatches_pair, List.map_singleton]
  simp only [scoreTriple, pairMatch_score, pairMatch_textSimilarity, pairMatch_tagOverlap,
    hcos, htag]
  norm_num
  rw [jround_hundredten, jround_hundred, jround_zero]
  norm_num

/-- Shared disjoint evaluation: two profiles whose built texts share no
token and whose lower-cased tags share no element get the floor scores:
display 50, text sub-score 0, tag sub-score 0. -/
theorem disjoint_eval {a b : Profile}
    (htok : ∀ tk ∈ tokenize (buildProfileText a), tk ∉ tokenize (buildProfileText b))
    (htags : ∀ tg ∈ (a.tags.getD []).map jsToLower,
      tg ∉ (b.tags.getD []).map jsToLower) :
    (computeMatches [a] [b]).map scoreTriple = [(50, 0, 0)] := by
  have hcos : cosineSimilarity (tfidfVector (buildProfileText a) (corpusIdf [a] [b]))
      (tfidfVector (buildProfileText b) (corpusIdf [a] [b])) = 0 := by
    refine cosineSimilarity_eq_zero_of_disjoint ?_
    intro k
    by_cases h1 : vecGet (tfidfVector (buildProfileText a) (corpusIdf [a] [b])) k = 0
    · exact Or.inl h1
    · refine Or.inr (by_contra fun h2 => ?_)
      exact htok k (tfidf_support h1) (tfidf_support h2)
  have htag : tagOverlapScore (a.tags.getD []) (b.tags.getD []) = 0 :=
    tagOverlapScore_eq_zero_of_disjoint htags
  rw [computeMatches_pair, List.map_singleton]
  simp only [scoreTriple, pairMatch_score, pairMatch_textSimilarity, pairMatch_tagOverlap,
    hcos, htag]
  norm_num
  rw [jround_fifty, jround_zero]
  norm_num

/-! ## Supporting lemmas for the claims -/

theorem scoreInertEq_textTagEq {p q : Profile} (h : ScoreInertEq p q) : TextTagEq p q := by
  obtain ⟨h1, h2, h3, h4, h5, h6⟩ := h
  constructor
  · unfold buildProfileText
    rw [h1, h2, h3, h4, h5, h6]
  · rw [h3]

theorem textTagEq_fill (p : Profile) : TextTagEq p (fillProfileDefaults p) :=
  ⟨rfl, rfl⟩

theorem forall₂_fill (l : List Profile) :
    List.Forall₂ TextTagEq l (l.map fillProfileDefaults) := by
  induction l with
  | nil => exact List.Forall₂.nil
  | cons p ps ih => exact List.Forall₂.cons (textTagEq_fill p) ih

/-! ## The claims -/

/-- C1 counterexample: the claim is false as stated.  The two creator
collections `[profNicheBB]` and `[profNicheCC]` are identical except in
the `niche` field (they agree on name, description and tags), yet
against the same hotel collection `[profDescBB]` the first run scores
(99, 100, 0) and the second (50, 0, 0): `niche` feeds
`buildProfileText` and therefore the text-similarity score. -/
theorem claim1_counterexample :
    ClaimOneEq profNicheBB profNicheCC ∧
      (computeMatches [profNicheBB] [profDescBB]).map scoreTriple ≠
        (computeMatches [profNicheCC] [profDescBB]).map scoreTriple := by
  refine ⟨⟨rfl, rfl, rfl⟩, ?_⟩
  have h1 : (computeMatches [profNicheBB] [profDescBB]).map scoreTriple =
      [(99, 100, 0)] :=
    singleToken_eval (show tokenize (buildProfileText profNicheBB) = [sBB] from by decide)
      (show tokenize (buildProfileText profDescBB) = [sBB] from by decide)
      (by decide) (by decide)
  have h2 : (computeMatches [profNicheCC] [profDescBB]).map scoreTriple =
      [(50, 0, 0)] :=
    disjoint_eval (by decide) (by decide)
  rw [h1, h2]
  decide

/-- C1 (amended): only the engagement, rating and collabs fields are
score-inert.  For input collections that agree pointwise on every field
except engagement, rating and collabs, `computeMatches` returns, for
every pair, the same displayScore, the same integer textSimilarity
sub-score and the same integer tagOverlap sub-score.  (The fields
niche, location and type do influence the scores, since they feed the
TF-IDF profile text.) -/
theorem claim1_amended {cs cs' hs hs' : List Profile}
    (h1 : List.Forall₂ ScoreInertEq cs cs') (h2 : List.Forall₂ ScoreInertEq hs hs') :
    (computeMatches cs hs).map scoreTriple = (computeMatches cs' hs').map scoreTriple :=
  computeMatches_triples_congr (h1.imp fun a b hab => scoreInertEq_textTagEq hab)
    (h2.imp fun a b hab => scoreInertEq_textTagEq hab)

/-- C1 amended witness: two singleton runs differing only in an
engagement indicator produce identical score triples. -/
theorem claim1_amended_witness :
    List.Forall₂ ScoreInertEq [profEmpty] [profEngAA] ∧
      List.Forall₂ ScoreInertEq [profDescBB] [profDescBB] ∧
      (computeMatches [profEmpty] [profDescBB]).map scoreTriple =
        (computeMatches [profEngAA] [profDescBB]).map scoreTriple := by
  have hc : List.Forall₂ ScoreInertEq [profEmpty] [profEngAA] :=
    List.Forall₂.cons ⟨rfl, rfl, rfl, rfl, rfl, rfl⟩ List.Forall₂.nil
  have hh : List.Forall₂ ScoreInertEq [profDescBB] [profDescBB] :=
    List.Forall₂.cons ⟨rfl, rfl, rfl, rfl, rfl, rfl⟩ List.Forall₂.nil
  exact ⟨hc, hh, claim1_amended hc hh⟩

/-- C2: for every result of `computeMatches`, the displayed score is
`min(round(rawScore*100 + 50), 99)` where the blended raw score is
`0.6·textSimilarity + 0.4·tagScore` for that pair's TF-IDF vectors
(built over the shared corpus idf) and tag lists. -/
theorem claim2_score_formula (cs hs : List Profile) :
    (computeMatches cs hs).Forall (fun m => m.score =
      min (jround ((cosineSimilarity
        (tfidfVector (buildProfileText m.creator) (corpusIdf cs hs))
        (tfidfVector (buildProfileText m.hotel) (corpusIdf cs hs)) * 0.6 +
        tagOverlapScore (m.creator.tags.getD []) (m.hotel.tags.getD []) * 0.4) * 100 +
          50)) 99) :=
  computeMatches_formula cs hs

/-- C3: for non-empty inputs, `computeMatches` returns exactly
`|setA| × |setB|` results (the full cross product), and every result's
displayScore lies in `[50, 99]`. -/
theorem claim3_count_range (cs hs : List Profile) (h1 : cs ≠ []) (h2 : hs ≠ []) :
    (computeMatches cs hs).length = cs.length * hs.length ∧
      (computeMatches cs hs).Forall (fun m => 50 ≤ m.score ∧ m.score ≤ 99) :=
  ⟨computeMatches_length cs hs, computeMatches_bounds cs hs⟩

/-- C3 witness: a concrete singleton run has exactly `1 × 1` results
with displayScore in range. -/
theorem claim3_witness :
    [profNameAA] ≠ ([] : List Profile) ∧ [profDescBB] ≠ ([] : List Profile) ∧
      ((computeMatches [profNameAA] [profDescBB]).length = 1 * 1 ∧
        (computeMatches [profNameAA] [profDescBB]).Forall
          (fun m => 50 ≤ m.score ∧ m.score ≤ 99)) :=
  ⟨by simp, by simp, claim3_count_range [profNameAA] [profDescBB] (by simp) (by simp)⟩

/-- C4: the sequence returned by `computeMatches` is sorted in
descending order of displayScore (pairwise, hence in particular at
every adjacent pair of positions). -/
theorem claim4_sorted (cs hs : List Profile) :
    (computeMatches cs hs).Pairwise (fun a b => b.score ≤ a.score) :=
  computeMatches_pairwise cs hs

/-- C5: `computeMatches` is total on malformed profiles: for arbitrary
inputs (absent name/description/tags included) it returns one result
per pair, and the scores are exactly those obtained after replacing the
absent text fields by empty strings and absent tag lists by empty
lists. -/
theorem claim5_total_defaults (cs hs : List Profile) :
    (computeMatches cs hs).length = cs.length * hs.length ∧
      (computeMatches cs hs).map scoreTriple =
        (computeMatches (cs.map fillProfileDefaults)
          (hs.map fillProfileDefaults)).map scoreTriple :=
  ⟨computeMatches_length cs hs,
    computeMatches_triples_congr (forall₂_fill cs) (forall₂_fill hs)⟩

/-- C6: for sparse vectors with non-negative entries the cosine
similarity lies in `[0, 1]`, and it is exactly `0` whenever either
vector's Euclidean norm is `0` (the division is guarded). -/
theorem claim6_cosine_range {a b : List (String × ℝ)}
    (ha : a.Forall (fun p => 0 ≤ p.2)) (hb : b.Forall (fun p => 0 ≤ p.2)) :
    0 ≤ cosineSimilarity a b ∧ cosineSimilarity a b ≤ 1 ∧
      ((vecNorm a = 0 ∨ vecNorm b = 0) → cosineSimilarity a b = 0) :=
  ⟨cosineSimilarity_nonneg (List.forall_iff_forall_mem.mp ha)
      (List.forall_iff_forall_mem.mp hb),
    cosineSimilarity_le_one a b,
    fun h => cosineSimilarity_eq_zero_of_norm h⟩

/-- C6 witness: a concrete non-negative vector against the empty
vector. -/
theorem claim6_witness :
    ([(sAA, (2 : ℝ))].Forall (fun p => 0 ≤ p.2)) ∧
      (([] : List (String × ℝ)).Forall (fun p => 0 ≤ p.2)) ∧
      (0 ≤ cosineSimilarity [(sAA, (2 : ℝ))] [] ∧
        cosineSimilarity [(sAA, (2 : ℝ))] [] ≤ 1 ∧
        ((vecNorm [(sAA, (2 : ℝ))] = 0 ∨ vecNorm ([] : List (String × ℝ)) = 0) →
          cosineSimilarity [(sAA, (2 : ℝ))] [] = 0)) := by
  have ha : ([(sAA, (2 : ℝ))].Forall (fun p => 0 ≤ p.2)) := by
    rw [List.forall_iff_forall_mem]
    intro x hx
    simp only [List.mem_singleton] at hx
    subst hx
    norm_num
  have hb : (([] : List (String × ℝ)).Forall (fun p => 0 ≤ p.2)) := by
    rw [List.forall_iff_forall_mem]
    intro x hx
    simp at hx
  exact ⟨ha, hb, claim6_cosine_range ha hb⟩

/-- C7: cosine similarity of every non-zero vector with itself is
exactly `1`, and cosine similarity is symmetric. -/
theorem claim7_self_symm :
    (∀ v : List (String × ℝ), (∃ k, vecGet v k ≠ 0) → cosineSimilarity v v = 1) ∧
      ∀ a b : List (String × ℝ), cosineSimilarity a b = cosineSimilarity b a :=
  ⟨fun _ hv => cosineSimilarity_self hv, cosineSimilarity_symm⟩

/-- C7 witness: the self-similarity part evaluated on a concrete
non-zero vector. -/
theorem claim7_witness :
    (∃ k, vecGet [(sAA, (2 : ℝ))] k ≠ 0) ∧
      cosineSimilarity [(sAA, (2 : ℝ))] [(sAA, (2 : ℝ))] = 1 := by
  have h : ∃ k, vecGet [(sAA, (2 : ℝ))] k ≠ 0 := by
    refine ⟨sAA, ?_⟩
    simp [vecGet, objGet]
  exact ⟨h, claim7_self_symm.1 _ h⟩

/-- C8: every token appearing in at least one document receives the idf
weight `ln(N / documentCount) + 1`, and a token appearing in every
document receives exactly `1` (never `0`). -/
theorem claim8_idf (docs : List String) (w : String) (h : 0 < countDocs docs w) :
    objGet (inverseDocumentFrequency docs) w =
      some (Real.log ((docs.length : ℝ) / (countDocs docs w : ℝ)) + 1) ∧
      (countDocs docs w = docs.length →
        objGet (inverseDocumentFrequency docs) w = some 1) := by
  have h0 : countDocs docs w ≠ 0 := by omega
  constructor
  · rw [objGet_idf, if_neg h0]
  · intro heq
    rw [objGet_idf, if_neg h0, heq]
    have hn : (docs.length : ℝ) ≠ 0 := by
      have : 0 < docs.length := by omega
      positivity
    rw [div_self hn, Real.log_one]
    norm_num

/-- C8 witness: the single-document corpus `["aa"]` and the token
`"aa"`, which appears in every document and receives idf exactly 1. -/
theorem claim8_witness :
    0 < countDocs [sAA] sAA ∧
      (objGet (inverseDocumentFrequency [sAA]) sAA =
        some (Real.log ((([sAA] : List String).length : ℝ) /
          (countDocs [sAA] sAA : ℝ)) + 1) ∧
        (countDocs [sAA] sAA = ([sAA] : List String).length →
          objGet (inverseDocumentFrequency [sAA]) sAA = some 1)) :=
  ⟨by decide, claim8_idf [sAA] sAA (by decide)⟩

/-- C9 counterexample: the claim is false as stated.  Both profiles
are `profNameAA`: their descriptions (absent, hence the empty token
list) share no token and their tag sets are disjoint (both empty), yet
the single result is (99, 100, 0), not (50, 0, 0) — the shared name
feeds the profile text and yields a perfect text match. -/
theorem claim9_counterexample :
    tokenize (profNameAA.description.getD emptyStr) = [] ∧
      profNameAA.tags.getD [] = [] ∧
      (computeMatches [profNameAA] [profNameAA]).map scoreTriple ≠ [(50, 0, 0)] := by
  refine ⟨by decide, by decide, ?_⟩
  have h : (computeMatches [profNameAA] [profNameAA]).map scoreTriple =
      [(99, 100, 0)] :=
    singleToken_eval (show tokenize (buildProfileText profNameAA) = [sAA] from by decide)
      (show tokenize (buildProfileText profNameAA) = [sAA] from by decide)
      (by decide) (by decide)
  rw [h]
  decide

/-- C9 (amended): for two profiles whose built profile texts (name,
description, tags, niche, location, type) share no token and whose
lower-cased tag lists are disjoint, `computeMatches` on the singleton
collections produces a single result with displayScore exactly 50,
textSimilarity 0 and tagOverlap 0. -/
theorem claim9_amended {a b : Profile}
    (htok : ∀ tk ∈ tokenize (buildProfileText a), tk ∉ tokenize (buildProfileText b))
    (htags : ∀ tg ∈ (a.tags.getD []).map jsToLower,
      tg ∉ (b.tags.getD []).map jsToLower) :
    (computeMatches [a] [b]).map scoreTriple = [(50, 0, 0)] :=
  disjoint_eval htok htags

/-- C9 amended witness: profiles with the disjoint descriptions `"aa"`
and `"bb"` and no tags produce the floor result. -/
theorem claim9_witness :
    (computeMatches [profDescAA] [profDescBB]).map scoreTriple = [(50, 0, 0)] :=
  claim9_amended (by decide) (by decide)

/-- C10: among results with equal displayScore, `computeMatches`
preserves generation order: filtering the returned sequence to any
score value yields exactly the same subsequence as filtering the
pre-sort cross-product list `rawMatches` (which is generated with the
creators outermost and, for each creator, the hotels in input order),
because the sort is stable. -/
theorem claim10_stable_ties (cs hs : List Profile) (s : ℤ) :
    (computeMatches cs hs).filter (fun m => decide (m.score = s)) =
      (rawMatches cs hs).filter (fun m => decide (m.score = s)) :=
  computeMatches_filter_score cs hs s
